import Mathlib

/-!
Verification of the picotron training driver (`train.py`).

The driver is shallowly embedded: the externally visible actions of one
training step (batch fetching, setting the `require_backward_grad_sync`
flag on the model, forward/backward execution, loss reduction, the
optimizer step, the reset hook, logging and checkpointing) are recorded
as an explicit event trace, and the numeric loss accumulation is carried
in exact rational arithmetic.  Components of the repository that are
referenced by `train.py` but whose sources are not part of this tree
(the pipeline schedulers, the loss-reduction primitive, the process
group manager) are modelled from the specification; each such definition
says so in its doc comment.
-/

namespace Picotron

/-- Externally visible actions the training driver performs, in program
order.  `getBatch i` is `next(data_loader)` for micro-batch `i`,
`setGradSync i b` is the assignment `model.require_backward_grad_sync = b`
made while processing micro-batch `i`, `forward`/`backward` are the model
collaborator calls, and the remaining constructors are the per-iteration
driver actions of the main loop. -/
inductive Event where
  | getBatch (i : Nat)
  | setGradSync (i : Nat) (b : Bool)
  | forward (i : Nat)
  | backward (i : Nat)
  | zeroGrad
  | lossReduce
  | optimizerStep
  | resetModel
  | logLine (step : Nat)
  | wandbLog (step : Nat)
  | saveCheckpoint (step : Nat)
  | loadCheckpoint
  deriving DecidableEq, Repr

/-- Interface of the data loader as `train_step` sees it: the number of
gradient-accumulation micro-batches per step, and (abstracting the model
collaborator and the data) the mean cross-entropy loss that micro-batch
`i` produces. -/
structure MicroBatchDataLoader where
  grad_acc : Nat
  ceLoss : Nat → ℚ

/-- State threaded through the micro-batch loop of `train_step`:
the accumulated loss `acc_loss`, the current value of the flag
`require_backward_grad_sync` on the model (`none` when never assigned), the
record of all flag assignments `(i, value)` in order, and the event
trace. -/
structure TrainStepState where
  acc_loss : ℚ
  require_backward_grad_sync : Option Bool
  flag_sets : List (Nat × Bool)
  events : List Event
  deriving DecidableEq, Repr

/-- Events emitted by one iteration of the micro-batch loop in
`train_step` (train.py lines 36-57): fetch the batch, assign the grad
sync flag when `cp_dp_world_size > 1`, run forward, then backward. -/
def microEvents (cp_dp_world_size : Nat) (dl : MicroBatchDataLoader) (i : Nat) : List Event :=
  Event.getBatch i ::
    ((if 1 < cp_dp_world_size then [Event.setGradSync i (decide (i = dl.grad_acc - 1))] else [])
      ++ [Event.forward i, Event.backward i])

/-- Body of the micro-batch loop of `train_step` (train.py lines 36-57):
`model.require_backward_grad_sync = (i == data_loader.grad_acc - 1)` is
assigned only when `requires_grad_sync` (i.e. `cp_dp_world_size > 1`),
and the micro-batch loss `cross_entropy(...).mean() / grad_acc` is added
to the accumulator. -/
def trainStepBody (cp_dp_world_size : Nat) (dl : MicroBatchDataLoader)
    (s : TrainStepState) (i : Nat) : TrainStepState :=
  { acc_loss := s.acc_loss + dl.ceLoss i / (dl.grad_acc : ℚ),
    require_backward_grad_sync :=
      if 1 < cp_dp_world_size then some (decide (i = dl.grad_acc - 1))
      else s.require_backward_grad_sync,
    flag_sets := s.flag_sets ++
      (if 1 < cp_dp_world_size then [(i, decide (i = dl.grad_acc - 1))] else []),
    events := s.events ++ microEvents cp_dp_world_size dl i }

/-- Embedding of `train_step` (train.py lines 32-59): iterate the loop
body over micro-batch indices `range(data_loader.grad_acc)` starting
from `acc_loss = 0.0` and no flag assignment. -/
def train_step (cp_dp_world_size : Nat) (dl : MicroBatchDataLoader) : TrainStepState :=
  (List.range dl.grad_acc).foldl (trainStepBody cp_dp_world_size dl)
    { acc_loss := 0, require_backward_grad_sync := none, flag_sets := [], events := [] }

/-- Embedding of the startup assertions (train.py lines 105-106), in
program order: first `SEQ_LEN % CP_SIZE == 0`, then
`world_size == TP_SIZE * PP_SIZE * DP_SIZE * CP_SIZE`; a failed `assert`
terminates the program with the given message. -/
def startup_assertions (seq_len cp_size world_size tp_size pp_size dp_size : Nat) :
    Except String Unit :=
  if seq_len % cp_size = 0 then
    if world_size = tp_size * pp_size * dp_size * cp_size then Except.ok ()
    else Except.error "world_size must be equal to tp_size * pp_size * dp_size * cp_size"
  else Except.error "SEQ_LEN must be divisible by cp_size for Context Parallelism"

lemma foldl_acc_loss (c : Nat) (dl : MicroBatchDataLoader) (l : List Nat) (s : TrainStepState) :
    (l.foldl (trainStepBody c dl) s).acc_loss
      = s.acc_loss + (l.map (fun i => dl.ceLoss i / (dl.grad_acc : ℚ))).sum := by
  induction l generalizing s with
  | nil => simp
  | cons a t ih =>
      simp only [List.foldl_cons, ih, List.map_cons, List.sum_cons, trainStepBody]
      ring

lemma foldl_flag_sets (c : Nat) (dl : MicroBatchDataLoader) (l : List Nat) (s : TrainStepState) :
    (l.foldl (trainStepBody c dl) s).flag_sets
      = s.flag_sets ++
        (if 1 < c then l.map (fun i => (i, decide (i = dl.grad_acc - 1))) else []) := by
  induction l generalizing s with
  | nil => simp
  | cons a t ih =>
      simp only [List.foldl_cons, ih, trainStepBody, List.map_cons]
      by_cases h : 1 < c <;> simp [h]

lemma foldl_events (c : Nat) (dl : MicroBatchDataLoader) (l : List Nat) (s : TrainStepState) :
    (l.foldl (trainStepBody c dl) s).events
      = s.events ++ l.flatMap (microEvents c dl) := by
  induction l generalizing s with
  | nil => simp
  | cons a t ih =>
      simp [List.foldl_cons, ih, trainStepBody]

lemma train_step_events (c : Nat) (dl : MicroBatchDataLoader) :
    (train_step c dl).events = (List.range dl.grad_acc).flatMap (microEvents c dl) := by
  simp [train_step, foldl_events]

lemma train_step_flag_sets (c : Nat) (dl : MicroBatchDataLoader) :
    (train_step c dl).flag_sets
      = (if 1 < c then
          (List.range dl.grad_acc).map (fun i => (i, decide (i = dl.grad_acc - 1)))
        else []) := by
  simp [train_step, foldl_flag_sets]

/-- C4: the loss returned by `train_step` is the sum over the micro-batches
of the mean cross-entropy loss of each micro-batch divided by `grad_acc`. -/
theorem train_step_acc_loss (cp_dp_world_size : Nat) (dl : MicroBatchDataLoader) :
    (train_step cp_dp_world_size dl).acc_loss
      = ((List.range dl.grad_acc).map (fun i => dl.ceLoss i / (dl.grad_acc : ℚ))).sum := by
  simp [train_step, foldl_acc_loss]

/-- C2: startup succeeds if and only if the configured sequence length is
divisible by the context-parallel size and the world size equals the
product `tp_size * pp_size * dp_size * cp_size`; otherwise an assertion
fails fatally before any training begins. -/
theorem startup_assertions_ok_iff
    (seq_len cp_size world_size tp_size pp_size dp_size : Nat) :
    startup_assertions seq_len cp_size world_size tp_size pp_size dp_size = Except.ok ()
      ↔ (seq_len % cp_size = 0 ∧ world_size = tp_size * pp_size * dp_size * cp_size) := by
  unfold startup_assertions
  by_cases h1 : seq_len % cp_size = 0 <;>
    by_cases h2 : world_size = tp_size * pp_size * dp_size * cp_size <;>
      simp [h1, h2]

/-- C10: when `data_loader.grad_acc = 0` the micro-batch loop of
`train_step` never executes: the event trace is empty (no batch fetch, no
model invocation, hence no division by `grad_acc` is ever evaluated), the
`require_backward_grad_sync` flag is never assigned, and the returned
accumulated loss is exactly `0.0`. -/
theorem train_step_grad_acc_zero (cp_dp_world_size : Nat) (dl : MicroBatchDataLoader)
    (h : dl.grad_acc = 0) :
    (train_step cp_dp_world_size dl).events = []
      ∧ (train_step cp_dp_world_size dl).flag_sets = []
      ∧ (train_step cp_dp_world_size dl).require_backward_grad_sync = none
      ∧ (train_step cp_dp_world_size dl).acc_loss = 0 := by
  simp [train_step, h]

/-- Witness for C10 at a concrete data loader with `grad_acc = 0`. -/
theorem train_step_grad_acc_zero_witness :
    (MicroBatchDataLoader.mk 0 (fun _ => 0)).grad_acc = 0
      ∧ ((train_step 2 (MicroBatchDataLoader.mk 0 (fun _ => 0))).events = []
          ∧ (train_step 2 (MicroBatchDataLoader.mk 0 (fun _ => 0))).flag_sets = []
          ∧ (train_step 2 (MicroBatchDataLoader.mk 0 (fun _ => 0))).require_backward_grad_sync = none
          ∧ (train_step 2 (MicroBatchDataLoader.mk 0 (fun _ => 0))).acc_loss = 0) :=
  ⟨rfl, train_step_grad_acc_zero 2 (MicroBatchDataLoader.mk 0 (fun _ => 0)) rfl⟩

/-- C1: when `cp_dp_world_size > 1`, `train_step` assigns the
flag `require_backward_grad_sync` of the model once per micro-batch: `false` for every
micro-batch index `i < grad_acc - 1` and `true` exactly for the last
index `i = grad_acc - 1`, so gradient communication is suppressed for all
but the last micro-batch of the gradient-accumulation group. -/
theorem train_step_grad_sync_flags (cp_dp_world_size : Nat) (dl : MicroBatchDataLoader)
    (h : 1 < cp_dp_world_size) :
    (∀ i b, ((i, b) ∈ (train_step cp_dp_world_size dl).flag_sets
        ↔ (i < dl.grad_acc ∧ b = decide (i = dl.grad_acc - 1))))
      ∧ (∀ i, i < dl.grad_acc - 1 → (i, false) ∈ (train_step cp_dp_world_size dl).flag_sets)
      ∧ (0 < dl.grad_acc
          → (dl.grad_acc - 1, true) ∈ (train_step cp_dp_world_size dl).flag_sets)
      ∧ (∀ i b, (i, b) ∈ (train_step cp_dp_world_size dl).flag_sets
          → (b = true ↔ i = dl.grad_acc - 1)) := by
  have hmem : ∀ i b, ((i, b) ∈ (train_step cp_dp_world_size dl).flag_sets
      ↔ (i < dl.grad_acc ∧ b = decide (i = dl.grad_acc - 1))) := by
    intro i b
    rw [train_step_flag_sets, if_pos h]
    simp only [List.mem_map, List.mem_range, Prod.mk.injEq]
    constructor
    · rintro ⟨j, hj, rfl, rfl⟩
      exact ⟨hj, rfl⟩
    · rintro ⟨hi, rfl⟩
      exact ⟨i, hi, rfl, rfl⟩
  refine ⟨hmem, ?_, ?_, ?_⟩
  · intro i hi
    rw [hmem]
    constructor
    · omega
    · have hne : i ≠ dl.grad_acc - 1 := by omega
      simp [hne]
  · intro hg
    rw [hmem]
    refine ⟨by omega, by simp⟩
  · intro i b hb
    rw [hmem] at hb
    rcases hb with ⟨-, rfl⟩
    simp

/-- Witness for C1 with `cp_dp_world_size = 2` and `grad_acc = 3`. -/
theorem train_step_grad_sync_flags_witness :
    1 < 2
      ∧ ((∀ i b, ((i, b) ∈ (train_step 2 (MicroBatchDataLoader.mk 3 (fun _ => 0))).flag_sets
            ↔ (i < (MicroBatchDataLoader.mk 3 (fun _ => (0:ℚ))).grad_acc
                ∧ b = decide (i = (MicroBatchDataLoader.mk 3 (fun _ => (0:ℚ))).grad_acc - 1))))
          ∧ (∀ i, i < (MicroBatchDataLoader.mk 3 (fun _ => (0:ℚ))).grad_acc - 1
              → (i, false) ∈ (train_step 2 (MicroBatchDataLoader.mk 3 (fun _ => 0))).flag_sets)
          ∧ (0 < (MicroBatchDataLoader.mk 3 (fun _ => (0:ℚ))).grad_acc
              → ((MicroBatchDataLoader.mk 3 (fun _ => (0:ℚ))).grad_acc - 1, true)
                  ∈ (train_step 2 (MicroBatchDataLoader.mk 3 (fun _ => 0))).flag_sets)
          ∧ (∀ i b, (i, b) ∈ (train_step 2 (MicroBatchDataLoader.mk 3 (fun _ => 0))).flag_sets
              → (b = true ↔ i = (MicroBatchDataLoader.mk 3 (fun _ => (0:ℚ))).grad_acc - 1))) :=
  ⟨by decide, train_step_grad_sync_flags 2 (MicroBatchDataLoader.mk 3 (fun _ => 0)) (by decide)⟩

/-- Forward and backward operations of a pipeline schedule for one
training step; `F i` / `B i` are the forward / backward pass of
micro-batch `i`. -/
inductive PipeOp where
  | F (i : Nat)
  | B (i : Nat)
  deriving DecidableEq, Repr

/-- Modelled from the spec: `train_step_pipeline_afab` lives in
`src/parallel/pipeline_parallel.py`, which is not part of the provided
sources.  Spec section 4.4: execute all `grad_acc` forward passes in
micro-batch order, then all backward passes in the same order. -/
def afab_schedule (grad_acc : Nat) : List PipeOp :=
  (List.range grad_acc).map PipeOp.F ++ (List.range grad_acc).map PipeOp.B

/-- Modelled from the spec: number of warm-up forward passes of the 1F1B
schedule, `pipeline_size - pipeline_rank - 1`, capped at `grad_acc`. -/
def warmupSteps (pp_size pp_rank grad_acc : Nat) : Nat :=
  min (pp_size - pp_rank - 1) grad_acc

/-- Modelled from the spec: `train_step_pipeline_1f1b` lives in
`src/parallel/pipeline_parallel.py`, which is not part of the provided
sources.  Spec section 4.4: a warm-up phase of `warmupSteps` forward
passes with no matching backward, a steady-state phase alternating one
forward and one backward per iteration, and a cool-down phase draining
the remaining backward passes. -/
def schedule_1f1b (pp_size pp_rank grad_acc : Nat) : List PipeOp :=
  ((List.range (warmupSteps pp_size pp_rank grad_acc)).map PipeOp.F)
    ++ (List.range (grad_acc - warmupSteps pp_size pp_rank grad_acc)).flatMap
        (fun j => [PipeOp.F (warmupSteps pp_size pp_rank grad_acc + j), PipeOp.B j])
    ++ (List.range (warmupSteps pp_size pp_rank grad_acc)).map
        (fun j => PipeOp.B (grad_acc - warmupSteps pp_size pp_rank grad_acc + j))

/-- Accumulation state of a pipeline training step: accumulated loss and
accumulated gradient (one abstract parameter coordinate, exact
rationals). -/
structure PipeState where
  acc_loss : ℚ
  acc_grad : ℚ
  deriving DecidableEq, Repr

/-- Effect of one schedule operation: a forward pass of micro-batch `i`
adds `ceLoss i / grad_acc` to the accumulated loss (as in the last
pipeline stage), a backward pass adds the gradient
contribution of that micro-batch to the gradient accumulator. -/
def execOp (ceLoss grad : Nat → ℚ) (grad_acc : Nat) (s : PipeState) : PipeOp → PipeState
  | PipeOp.F i => { s with acc_loss := s.acc_loss + ceLoss i / (grad_acc : ℚ) }
  | PipeOp.B i => { s with acc_grad := s.acc_grad + grad i }

/-- Run a whole pipeline schedule from the zero state. -/
def execSchedule (ceLoss grad : Nat → ℚ) (grad_acc : Nat) (ops : List PipeOp) : PipeState :=
  ops.foldl (execOp ceLoss grad grad_acc) ⟨0, 0⟩

/-- Indices of the forward passes of a schedule, in schedule order. -/
def fIdx : List PipeOp → List Nat
  | [] => []
  | PipeOp.F i :: t => i :: fIdx t
  | PipeOp.B _ :: t => fIdx t

/-- Indices of the backward passes of a schedule, in schedule order. -/
def bIdx : List PipeOp → List Nat
  | [] => []
  | PipeOp.F _ :: t => bIdx t
  | PipeOp.B i :: t => i :: bIdx t

lemma fIdx_append (l1 l2 : List PipeOp) : fIdx (l1 ++ l2) = fIdx l1 ++ fIdx l2 := by
  induction l1 with
  | nil => simp [fIdx]
  | cons a t ih => cases a <;> simp [fIdx, ih]

lemma bIdx_append (l1 l2 : List PipeOp) : bIdx (l1 ++ l2) = bIdx l1 ++ bIdx l2 := by
  induction l1 with
  | nil => simp [bIdx]
  | cons a t ih => cases a <;> simp [bIdx, ih]

lemma fIdx_map_F (l : List Nat) : fIdx (l.map PipeOp.F) = l := by
  induction l with
  | nil => rfl
  | cons a t ih => simp [fIdx, ih]

lemma fIdx_map_B (f : Nat → Nat) (l : List Nat) : fIdx (l.map (fun j => PipeOp.B (f j))) = [] := by
  induction l with
  | nil => rfl
  | cons a t ih => simp [fIdx, ih]

lemma bIdx_map_F (l : List Nat) : bIdx (l.map PipeOp.F) = [] := by
  induction l with
  | nil => rfl
  | cons a t ih => simp [bIdx, ih]

lemma bIdx_map_B (f : Nat → Nat) (l : List Nat) : bIdx (l.map (fun j => PipeOp.B (f j))) = l.map f := by
  induction l with
  | nil => rfl
  | cons a t ih => simp [bIdx, ih]

lemma fIdx_steady (w : Nat) (l : List Nat) :
    fIdx (l.flatMap (fun j => [PipeOp.F (w + j), PipeOp.B j])) = l.map (fun j => w + j) := by
  induction l with
  | nil => rfl
  | cons a t ih =>
      rw [List.flatMap_cons, fIdx_append]
      simp [fIdx, ih]

lemma bIdx_steady (w : Nat) (l : List Nat) :
    bIdx (l.flatMap (fun j => [PipeOp.F (w + j), PipeOp.B j])) = l := by
  induction l with
  | nil => rfl
  | cons a t ih =>
      rw [List.flatMap_cons, bIdx_append]
      simp [bIdx, ih]

lemma foldl_execOp (ceLoss grad : Nat → ℚ) (g : Nat) (ops : List PipeOp) (s : PipeState) :
    ops.foldl (execOp ceLoss grad g) s
      = ⟨s.acc_loss + ((fIdx ops).map (fun i => ceLoss i / (g : ℚ))).sum,
         s.acc_grad + ((bIdx ops).map grad).sum⟩ := by
  induction ops generalizing s with
  | nil => cases s; simp [fIdx, bIdx]
  | cons a t ih =>
      cases a with
      | F i =>
          simp only [List.foldl_cons, execOp, ih, fIdx, bIdx, List.map_cons, List.sum_cons]
          exact congrArg₂ PipeState.mk (by ring) rfl
      | B i =>
          simp only [List.foldl_cons, execOp, ih, fIdx, bIdx, List.map_cons, List.sum_cons]
          exact congrArg₂ PipeState.mk rfl (by ring)

lemma fIdx_afab (g : Nat) : fIdx (afab_schedule g) = List.range g := by
  simp [afab_schedule, fIdx_append, fIdx_map_F]
  have := fIdx_map_B (fun j => j) (List.range g)
  simpa using this

lemma bIdx_afab (g : Nat) : bIdx (afab_schedule g) = List.range g := by
  simp [afab_schedule, bIdx_append, bIdx_map_F]
  have := bIdx_map_B (fun j => j) (List.range g)
  simpa using this

lemma fIdx_1f1b (p r g : Nat) : fIdx (schedule_1f1b p r g) = List.range g := by
  have hw : warmupSteps p r g ≤ g := Nat.min_le_right _ _
  rw [schedule_1f1b, fIdx_append, fIdx_append, fIdx_map_F, fIdx_steady, fIdx_map_B]
  rw [List.append_nil, ← List.range_add]
  congr 1
  omega

lemma bIdx_1f1b (p r g : Nat) : bIdx (schedule_1f1b p r g) = List.range g := by
  have hw : warmupSteps p r g ≤ g := Nat.min_le_right _ _
  rw [schedule_1f1b, bIdx_append, bIdx_append, bIdx_map_F, bIdx_steady, bIdx_map_B]
  rw [List.nil_append, ← List.range_add]
  congr 1
  omega

/-- C3: for the same per-micro-batch losses and gradient contributions,
the AFAB and 1F1B pipeline scheduling policies produce identical
accumulated loss and identical accumulated gradients, hence the same
final parameter update. -/
theorem afab_1f1b_same_result (ceLoss grad : Nat → ℚ) (pp_size pp_rank grad_acc : Nat) :
    execSchedule ceLoss grad grad_acc (afab_schedule grad_acc)
      = execSchedule ceLoss grad grad_acc (schedule_1f1b pp_size pp_rank grad_acc) := by
  rw [execSchedule, execSchedule, foldl_execOp, foldl_execOp,
    fIdx_afab, bIdx_afab, fIdx_1f1b, bIdx_1f1b]

/-- Modelled from the spec: the process group manager is constructed in
`src/distributed/process_group_manager.py`, which is not part of the
provided sources.  Only the fields `train.py` reads are represented: the
per-axis coordinates of the rank and the last-pipeline-stage flag
(spec section 3, "Topology snapshot"). -/
structure ProcessGroupManager where
  tp_rank : Nat
  dp_rank : Nat
  cp_rank : Nat
  pp_is_last_stage : Bool
  deriving DecidableEq, Repr

/-- Embedding of `is_wandb_rank` (train.py line 116): the rank reports if
it has tensor, data and context coordinate 0 and is the last pipeline
stage. -/
def is_wandb_rank (pgm : ProcessGroupManager) : Bool :=
  (pgm.tp_rank == 0) && (pgm.dp_rank == 0) && (pgm.cp_rank == 0) && pgm.pp_is_last_stage

/-- Configuration and environment of the main training loop: the config
values `train.py` reads plus the properties of the collaborators the
loop branches on (whether the model exposes a reset hook, the parallel world sizes,
the data loader). -/
structure Config where
  use_wandb : Bool
  checkpoint_frequency : Nat
  total_train_steps : Nat
  max_tokens : Option Nat
  tokens_per_step : Nat
  load_path : Bool
  loaded_step : Nat
  loaded_tokens : Nat
  has_reset : Bool
  pp_world_size : Nat
  cp_dp_world_size : Nat
  dl : MicroBatchDataLoader

/-- Event corresponding to one pipeline schedule operation. -/
def opEvent : PipeOp → Event
  | PipeOp.F i => Event.forward i
  | PipeOp.B i => Event.backward i

/-- Events of the training-step call of one loop iteration (train.py
lines 207-210): the AFAB pipeline step when `pp_world_size > 1` (the
scheduler itself is spec-modelled, see `afab_schedule`), otherwise the
non-pipelined `train_step`. -/
def trainStepEvents (cfg : Config) : List Event :=
  if 1 < cfg.pp_world_size then (afab_schedule cfg.dl.grad_acc).map opEvent
  else (train_step cfg.cp_dp_world_size cfg.dl).events

/-- Events produced inside a training step (batch fetches, grad-sync
flag assignments, forward and backward passes), as opposed to the
driver-level events of the main loop. -/
def Event.isMicro : Event → Bool
  | Event.getBatch _ => true
  | Event.setGradSync _ _ => true
  | Event.forward _ => true
  | Event.backward _ => true
  | _ => false

lemma microEvents_isMicro (c : Nat) (dl : MicroBatchDataLoader) (i : Nat) :
    ∀ e ∈ microEvents c dl i, e.isMicro = true := by
  intro e he
  by_cases h : 1 < c
  · simp [microEvents, h] at he
    rcases he with rfl | rfl | rfl | rfl <;> rfl
  · simp [microEvents, h] at he
    rcases he with rfl | rfl | rfl <;> rfl

lemma trainStepEvents_isMicro (cfg : Config) :
    ∀ e ∈ trainStepEvents cfg, e.isMicro = true := by
  intro e he
  rw [trainStepEvents] at he
  by_cases h : 1 < cfg.pp_world_size
  · rw [if_pos h] at he
    rcases List.mem_map.mp he with ⟨op, -, rfl⟩
    cases op <;> rfl
  · rw [if_neg h, train_step_events] at he
    rcases List.mem_flatMap.mp he with ⟨i, -, hi⟩
    exact microEvents_isMicro _ _ _ e hi

lemma not_mem_trainStepEvents (cfg : Config) {e : Event} (he : e.isMicro = false) :
    e ∉ trainStepEvents cfg := by
  intro hmem
  rw [trainStepEvents_isMicro cfg e hmem] at he
  cases he

lemma logLine_not_mem_trainStepEvents (cfg : Config) (m : Nat) :
    Event.logLine m ∉ trainStepEvents cfg :=
  not_mem_trainStepEvents cfg rfl

lemma wandbLog_not_mem_trainStepEvents (cfg : Config) (m : Nat) :
    Event.wandbLog m ∉ trainStepEvents cfg :=
  not_mem_trainStepEvents cfg rfl

lemma saveCheckpoint_not_mem_trainStepEvents (cfg : Config) (m : Nat) :
    Event.saveCheckpoint m ∉ trainStepEvents cfg :=
  not_mem_trainStepEvents cfg rfl

lemma loadCheckpoint_not_mem_trainStepEvents (cfg : Config) :
    Event.loadCheckpoint ∉ trainStepEvents cfg :=
  not_mem_trainStepEvents cfg rfl

/-- Driver actions that follow the optimizer step inside one loop
iteration (train.py lines 219-238): the optional `model.reset()` hook,
the log line of the designated rank with the optional wandb upload, and the
periodic checkpoint save. -/
def driverTail (cfg : Config) (pgm : ProcessGroupManager) (n : Nat) : List Event :=
  (if cfg.has_reset then [Event.resetModel] else [])
    ++ (if is_wandb_rank pgm then
          Event.logLine n :: (if cfg.use_wandb then [Event.wandbLog n] else [])
        else [])
    ++ (if n % cfg.checkpoint_frequency = 0 then [Event.saveCheckpoint n] else [])

/-- Events of one iteration of the training loop (train.py lines
204-238), parameterized by the post-increment step index `n` the
iteration reaches: `optimizer.zero_grad()`, the training step, the loss
all-reduce, `optimizer.step()`, then the `driverTail` actions. -/
def iterEvents (cfg : Config) (pgm : ProcessGroupManager) (n : Nat) : List Event :=
  Event.zeroGrad ::
    (trainStepEvents cfg
      ++ [Event.lossReduce, Event.optimizerStep]
      ++ driverTail cfg pgm n)

/-- C7: in any loop iteration, the per-step log line is emitted by a rank
if and only if that rank has tensor, data and context coordinate 0 and is
the last pipeline stage (and it carries the step index of that iteration); any
wandb metrics upload happens only on that designated rank; no other rank
emits a per-step log line. -/
theorem log_line_iff_wandb_rank (cfg : Config) (pgm : ProcessGroupManager) (n : Nat) :
    (∀ m, (Event.logLine m ∈ iterEvents cfg pgm n ↔ (is_wandb_rank pgm = true ∧ m = n)))
      ∧ (∀ m, Event.wandbLog m ∈ iterEvents cfg pgm n → is_wandb_rank pgm = true)
      ∧ (is_wandb_rank pgm = true
          ↔ (pgm.tp_rank = 0 ∧ pgm.dp_rank = 0 ∧ pgm.cp_rank = 0
              ∧ pgm.pp_is_last_stage = true)) := by
  refine ⟨?_, ?_, ?_⟩
  · intro m
    by_cases hw : is_wandb_rank pgm <;>
      by_cases hr : cfg.has_reset <;>
        by_cases hc : n % cfg.checkpoint_frequency = 0 <;>
          by_cases hu : cfg.use_wandb <;>
            simp [iterEvents, driverTail, hw, hr, hc, hu, logLine_not_mem_trainStepEvents, eq_comm]
  · intro m
    by_cases hw : is_wandb_rank pgm <;>
      by_cases hr : cfg.has_reset <;>
        by_cases hc : n % cfg.checkpoint_frequency = 0 <;>
          by_cases hu : cfg.use_wandb <;>
            simp [iterEvents, driverTail, hw, hr, hc, hu, wandbLog_not_mem_trainStepEvents]
  · simp [is_wandb_rank]
    tauto

lemma mem_of_getElem?_eq_some {α : Type} {l : List α} {i : Nat} {a : α}
    (h : l[i]? = some a) : a ∈ l := by
  rw [List.getElem?_eq_some] at h
  obtain ⟨hi, rfl⟩ := h
  exact List.getElem_mem hi

lemma index_order_of_append {α : Type} (l1 l2 : List α) {x y : α}
    (hx : x ∉ l2) (hy : y ∉ l1) :
    ∀ i j : Nat, (l1 ++ l2)[i]? = some x → (l1 ++ l2)[j]? = some y → i < j := by
  intro i j hxi hyj
  rw [List.getElem?_append] at hxi hyj
  by_cases hi : i < l1.length
  · by_cases hj : j < l1.length
    · rw [if_pos hj] at hyj
      exact absurd (mem_of_getElem?_eq_some hyj) hy
    · omega
  · rw [if_neg hi] at hxi
    exact absurd (mem_of_getElem?_eq_some hxi) hx

lemma lossReduce_not_mem_driverTail (cfg : Config) (pgm : ProcessGroupManager) (n : Nat) :
    Event.lossReduce ∉ driverTail cfg pgm n := by
  by_cases hr : cfg.has_reset <;> by_cases hw : is_wandb_rank pgm <;>
    by_cases hu : cfg.use_wandb <;> by_cases hc : n % cfg.checkpoint_frequency = 0 <;>
      simp [driverTail, hr, hw, hu, hc]

lemma optimizerStep_not_mem_driverTail (cfg : Config) (pgm : ProcessGroupManager) (n : Nat) :
    Event.optimizerStep ∉ driverTail cfg pgm n := by
  by_cases hr : cfg.has_reset <;> by_cases hw : is_wandb_rank pgm <;>
    by_cases hu : cfg.use_wandb <;> by_cases hc : n % cfg.checkpoint_frequency = 0 <;>
      simp [driverTail, hr, hw, hu, hc]

lemma driverTail_shape (cfg : Config) (pgm : ProcessGroupManager) (n : Nat) :
    ∀ e ∈ driverTail cfg pgm n,
      e = Event.resetModel ∨ (∃ m, e = Event.logLine m)
        ∨ (∃ m, e = Event.wandbLog m) ∨ (∃ m, e = Event.saveCheckpoint m) := by
  intro e he
  by_cases hr : cfg.has_reset <;> by_cases hw : is_wandb_rank pgm <;>
    by_cases hu : cfg.use_wandb <;> by_cases hc : n % cfg.checkpoint_frequency = 0 <;>
      simp [driverTail, hr, hw, hu, hc] at he <;> tauto

lemma driverTail_isMicro_false (cfg : Config) (pgm : ProcessGroupManager) (n : Nat) :
    ∀ e ∈ driverTail cfg pgm n, e.isMicro = false := by
  intro e he
  rcases driverTail_shape cfg pgm n e he with rfl | ⟨m, rfl⟩ | ⟨m, rfl⟩ | ⟨m, rfl⟩ <;> rfl

/-- C6: within every iteration of the training loop, every event of the
training step (batch fetches, grad-sync flag assignments, forward and
backward passes — in particular the gradient
synchronization of the final micro-batch) occurs strictly before the loss reduction across the
data+context group, and the loss reduction occurs strictly before the
optimizer step; the loss reduction is never issued while the
gradient synchronization of the step is still pending. -/
theorem loss_reduce_after_step_before_optimizer
    (cfg : Config) (pgm : ProcessGroupManager) (n : Nat)
    (i j k : Nat) (e : Event)
    (hei : (iterEvents cfg pgm n)[i]? = some e) (hmic : e.isMicro = true)
    (hj : (iterEvents cfg pgm n)[j]? = some Event.lossReduce)
    (hk : (iterEvents cfg pgm n)[k]? = some Event.optimizerStep) :
    i < j ∧ j < k := by
  have hsplit1 : iterEvents cfg pgm n
      = (Event.zeroGrad :: trainStepEvents cfg)
        ++ ([Event.lossReduce, Event.optimizerStep] ++ driverTail cfg pgm n) := by
    simp [iterEvents]
  have hsplit2 : iterEvents cfg pgm n
      = (Event.zeroGrad :: (trainStepEvents cfg ++ [Event.lossReduce]))
        ++ (Event.optimizerStep :: driverTail cfg pgm n) := by
    simp [iterEvents]
  constructor
  · refine index_order_of_append _ _ ?_ ?_ i j (hsplit1 ▸ hei) (hsplit1 ▸ hj)
    · intro hmem
      rcases List.mem_append.mp hmem with hmem | hmem
      · rcases List.mem_cons.mp hmem with rfl | hmem
        · cases hmic
        · rcases List.mem_cons.mp hmem with rfl | hmem
          · cases hmic
          · cases hmem
      · rw [driverTail_isMicro_false cfg pgm n e hmem] at hmic
        cases hmic
    · intro hmem
      rcases List.mem_cons.mp hmem with hmem | hmem
      · cases hmem
      · exact @not_mem_trainStepEvents cfg Event.lossReduce rfl hmem
  · refine index_order_of_append _ _ ?_ ?_ j k (hsplit2 ▸ hj) (hsplit2 ▸ hk)
    · intro hmem
      rcases List.mem_cons.mp hmem with hmem | hmem
      · cases hmem
      · exact lossReduce_not_mem_driverTail cfg pgm n hmem
    · intro hmem
      rcases List.mem_cons.mp hmem with hmem | hmem
      · cases hmem
      · rcases List.mem_append.mp hmem with hmem | hmem
        · exact @not_mem_trainStepEvents cfg Event.optimizerStep rfl hmem
        · rcases List.mem_cons.mp hmem with hmem | hmem
          · cases hmem
          · cases hmem

/-- Concrete configuration used by the witnesses: a single pipeline
stage, data+context world size 2, one micro-batch per step, reset hook
present, checkpoints every step, two training steps. -/
def cfgW : Config :=
  { use_wandb := false, checkpoint_frequency := 1, total_train_steps := 2,
    max_tokens := none, tokens_per_step := 8, load_path := false,
    loaded_step := 0, loaded_tokens := 0, has_reset := true,
    pp_world_size := 1, cp_dp_world_size := 2,
    dl := MicroBatchDataLoader.mk 1 (fun _ => 0) }

/-- Concrete reporting rank used by the witnesses. -/
def pgmW : ProcessGroupManager := ⟨0, 0, 0, true⟩

/-- Witness for C6 at the concrete configuration `cfgW`: the grad-sync
flag assignment sits at index 2, the loss reduction at index 5 and the
optimizer step at index 6 of the iteration trace. -/
theorem loss_reduce_order_witness :
    (iterEvents cfgW pgmW 1)[2]? = some (Event.setGradSync 0 true)
      ∧ (Event.setGradSync 0 true).isMicro = true
      ∧ (iterEvents cfgW pgmW 1)[5]? = some Event.lossReduce
      ∧ (iterEvents cfgW pgmW 1)[6]? = some Event.optimizerStep
      ∧ (2 < 5 ∧ 5 < 6) :=
  ⟨by decide, rfl, by decide, by decide,
    loss_reduce_after_step_before_optimizer cfgW pgmW 1 2 5 6
      (Event.setGradSync 0 true) (by decide) rfl (by decide) (by decide)⟩

lemma filter_ne_resetModel_trainStepEvents (cfg : Config) :
    (trainStepEvents cfg).filter (fun e => !(e == Event.resetModel)) = trainStepEvents cfg := by
  apply List.filter_eq_self.mpr
  intro e he
  have h2 := trainStepEvents_isMicro cfg e he
  cases e <;> simp_all [Event.isMicro]

/-- C9: in every loop iteration, if the model exposes a `reset`
operation the driver invokes it exactly once, strictly after the
optimizer step of the same iteration; if the model exposes no `reset`
operation nothing is invoked and the trace of the iteration is identical
except for the missing reset event. -/
theorem reset_hook_after_optimizer (cfg : Config) (pgm : ProcessGroupManager) (n : Nat)
    (h : cfg.has_reset = true) :
    ((iterEvents cfg pgm n).count Event.resetModel = 1)
      ∧ (∀ k j : Nat, (iterEvents cfg pgm n)[k]? = some Event.optimizerStep →
          (iterEvents cfg pgm n)[j]? = some Event.resetModel → k < j)
      ∧ (Event.resetModel ∉ iterEvents { cfg with has_reset := false } pgm n)
      ∧ (iterEvents { cfg with has_reset := false } pgm n
          = (iterEvents cfg pgm n).filter (fun e => !(e == Event.resetModel))) := by
  have hcount0 : (trainStepEvents cfg).count Event.resetModel = 0 :=
    List.count_eq_zero.mpr (@not_mem_trainStepEvents cfg Event.resetModel rfl)
  have hmem0 : Event.resetModel ∉ trainStepEvents cfg :=
    @not_mem_trainStepEvents cfg Event.resetModel rfl
  refine ⟨?_, ?_, ?_, ?_⟩
  · by_cases hw : is_wandb_rank pgm <;> by_cases hu : cfg.use_wandb <;>
      by_cases hc : n % cfg.checkpoint_frequency = 0 <;>
        simp [iterEvents, driverTail, h, hw, hu, hc, List.count_append,
          List.count_cons, hcount0]
  · intro k j hk hj
    have hsplit : iterEvents cfg pgm n
        = (Event.zeroGrad :: (trainStepEvents cfg ++ [Event.lossReduce, Event.optimizerStep]))
          ++ driverTail cfg pgm n := by
      simp [iterEvents]
    refine index_order_of_append _ _ ?_ ?_ k j (hsplit ▸ hk) (hsplit ▸ hj)
    · exact optimizerStep_not_mem_driverTail cfg pgm n
    · intro hmem
      rcases List.mem_cons.mp hmem with hmem | hmem
      · cases hmem
      · rcases List.mem_append.mp hmem with hmem | hmem
        · exact hmem0 hmem
        · rcases List.mem_cons.mp hmem with hmem | hmem
          · cases hmem
          · rcases List.mem_cons.mp hmem with hmem | hmem
            · cases hmem
            · cases hmem
  · have hiter : iterEvents { cfg with has_reset := false } pgm n
        = Event.zeroGrad :: (trainStepEvents cfg
            ++ [Event.lossReduce, Event.optimizerStep]
            ++ ((if is_wandb_rank pgm then
                  Event.logLine n :: (if cfg.use_wandb then [Event.wandbLog n] else [])
                else [])
              ++ (if n % cfg.checkpoint_frequency = 0 then [Event.saveCheckpoint n] else []))) :=
      rfl
    rw [hiter]
    by_cases hw : is_wandb_rank pgm <;> by_cases hu : cfg.use_wandb <;>
      by_cases hc : n % cfg.checkpoint_frequency = 0 <;>
        simp [hw, hu, hc, hmem0]
  · have hiter : iterEvents { cfg with has_reset := false } pgm n
        = Event.zeroGrad :: (trainStepEvents cfg
            ++ [Event.lossReduce, Event.optimizerStep]
            ++ ((if is_wandb_rank pgm then
                  Event.logLine n :: (if cfg.use_wandb then [Event.wandbLog n] else [])
                else [])
              ++ (if n % cfg.checkpoint_frequency = 0 then [Event.saveCheckpoint n] else []))) :=
      rfl
    rw [hiter]
    by_cases hw : is_wandb_rank pgm <;> by_cases hu : cfg.use_wandb <;>
      by_cases hc : n % cfg.checkpoint_frequency = 0 <;>
        simp [iterEvents, driverTail, h, hw, hu, hc, List.filter_append,
          filter_ne_resetModel_trainStepEvents]

/-- Witness for C9 at the concrete configuration `cfgW` (which has the
reset hook). -/
theorem reset_hook_after_optimizer_witness :
    cfgW.has_reset = true
      ∧ (((iterEvents cfgW pgmW 1).count Event.resetModel = 1)
          ∧ (∀ k j : Nat, (iterEvents cfgW pgmW 1)[k]? = some Event.optimizerStep →
              (iterEvents cfgW pgmW 1)[j]? = some Event.resetModel → k < j)
          ∧ (Event.resetModel ∉ iterEvents { cfgW with has_reset := false } pgmW 1)
          ∧ (iterEvents { cfgW with has_reset := false } pgmW 1
              = (iterEvents cfgW pgmW 1).filter (fun e => !(e == Event.resetModel)))) :=
  ⟨rfl, reset_hook_after_optimizer cfgW pgmW 1 rfl⟩

/-- Modelled from the spec: `all_reduce_loss_across_dp_cp_ranks` lives in
`src/distributed/distributed_primtives.py`, which is not part of the
provided sources.  Spec section 4.5: perform a sum-reduction of the
scalar loss across the combined data+context group and divide by the
size of that group.  The group is represented by the list of the
local losses of the members, and the result is the list of values the members hold
after the reduction. -/
def all_reduce_loss_across_dp_cp_ranks (losses : List ℚ) : List ℚ :=
  losses.map (fun _ => losses.sum / (losses.length : ℚ))

/-- C5: after the loss reduction, every rank of the combined data+context
group holds the sum of the local losses divided by the size of the group — in
particular every rank holds the same averaged value, whatever the number
of contributing data/context shards; the reduction keeps one value per
group member. -/
theorem all_reduce_loss_averages (losses : List ℚ) (x : ℚ)
    (hx : x ∈ all_reduce_loss_across_dp_cp_ranks losses) :
    x = losses.sum / (losses.length : ℚ)
      ∧ (all_reduce_loss_across_dp_cp_ranks losses).length = losses.length := by
  constructor
  · rcases List.mem_map.mp hx with ⟨y, -, rfl⟩
    rfl
  · simp [all_reduce_loss_across_dp_cp_ranks]

/-- Witness for C5 on the group of local losses `[1, 2, 3]`. -/
theorem all_reduce_loss_averages_witness :
    ((2 : ℚ) ∈ all_reduce_loss_across_dp_cp_ranks [1, 2, 3])
      ∧ ((2 : ℚ) = ([1, 2, 3] : List ℚ).sum / (([1, 2, 3] : List ℚ).length : ℚ)
          ∧ (all_reduce_loss_across_dp_cp_ranks [1, 2, 3]).length
              = ([1, 2, 3] : List ℚ).length) :=
  ⟨by norm_num [all_reduce_loss_across_dp_cp_ranks],
    all_reduce_loss_averages [1, 2, 3] 2
      (by norm_num [all_reduce_loss_across_dp_cp_ranks])⟩

/-- State of the main training loop (train.py line 189 onwards): the
step counter, the trained-token counter, and the event trace so far. -/
structure MainState where
  step : Nat
  trained_tokens : Nat
  events : List Event
  deriving Repr

/-- One iteration of the while loop (train.py lines 204-238): run the
events of the iteration, add `tokens_per_step` to the token counter and
increment the step counter; the log line and checkpoint save of the iteration
use the post-increment step index. -/
def loopIter (cfg : Config) (pgm : ProcessGroupManager) (s : MainState) : MainState :=
  { step := s.step + 1,
    trained_tokens := s.trained_tokens + cfg.tokens_per_step,
    events := s.events ++ iterEvents cfg pgm (s.step + 1) }

/-- Loop guard of the while loop (train.py line 201):
`MAX_TOKENS is None or trained_tokens < MAX_TOKENS`. -/
def whileCond (cfg : Config) (s : MainState) : Bool :=
  match cfg.max_tokens with
  | none => true
  | some m => decide (s.trained_tokens < m)

/-- Embedding of the while loop (train.py lines 201-241): while the
guard holds, run one iteration and stop when the post-increment step
counter reaches `TOTAL_TRAIN_STEPS` (the `break` on line 240-241).  The
first argument is recursion fuel; since the step counter increases by
one per iteration and the loop breaks once it reaches
`total_train_steps`, any fuel of at least `total_train_steps + 1`
iterations is never exhausted (made precise by `trainLoop_spec`). -/
def trainLoop (cfg : Config) (pgm : ProcessGroupManager) : Nat → MainState → MainState
  | 0, s => s
  | fuel+1, s =>
    if whileCond cfg s then
      if cfg.total_train_steps ≤ (loopIter cfg pgm s).step then loopIter cfg pgm s
      else trainLoop cfg pgm fuel (loopIter cfg pgm s)
    else s

/-- Initial loop state (train.py lines 189-191): counters start at zero;
when a load path is configured, `load_checkpoint` is called once and the
step and trained-token counters are restored from the checkpoint before
the loop starts. -/
def mainInitState (cfg : Config) : MainState :=
  if cfg.load_path then
    { step := cfg.loaded_step, trained_tokens := cfg.loaded_tokens,
      events := [Event.loadCheckpoint] }
  else { step := 0, trained_tokens := 0, events := [] }

/-- The whole driver after setup: optional checkpoint load, then the
training loop, with fuel `total_train_steps + 1` (an upper bound on the
number of iterations, see `trainLoop`). -/
def runMain (cfg : Config) (pgm : ProcessGroupManager) : MainState :=
  trainLoop cfg pgm (cfg.total_train_steps + 1) (mainInitState cfg)

lemma loadCheckpoint_not_mem_iterEvents (cfg : Config) (pgm : ProcessGroupManager) (m : Nat) :
    Event.loadCheckpoint ∉ iterEvents cfg pgm m := by
  intro hmem
  rcases List.mem_cons.mp hmem with hmem | hmem
  · cases hmem
  · rcases List.mem_append.mp hmem with hmem | hmem
    · rcases List.mem_append.mp hmem with hmem | hmem
      · exact @not_mem_trainStepEvents cfg Event.loadCheckpoint rfl hmem
      · rcases List.mem_cons.mp hmem with hmem | hmem
        · cases hmem
        · rcases List.mem_cons.mp hmem with hmem | hmem
          · cases hmem
          · cases hmem
    · rcases driverTail_shape cfg pgm m Event.loadCheckpoint hmem with
        h | ⟨_, h⟩ | ⟨_, h⟩ | ⟨_, h⟩ <;> cases h

lemma saveCheckpoint_mem_iterEvents_iff (cfg : Config) (pgm : ProcessGroupManager)
    (m n : Nat) :
    Event.saveCheckpoint n ∈ iterEvents cfg pgm m
      ↔ (m % cfg.checkpoint_frequency = 0 ∧ n = m) := by
  by_cases hr : cfg.has_reset <;> by_cases hw : is_wandb_rank pgm <;>
    by_cases hu : cfg.use_wandb <;> by_cases hc : m % cfg.checkpoint_frequency = 0 <;>
      simp [iterEvents, driverTail, hr, hw, hu, hc, saveCheckpoint_not_mem_trainStepEvents]

lemma trainLoop_spec (cfg : Config) (pgm : ProcessGroupManager) :
    ∀ fuel : Nat, ∀ s : MainState, 1 ≤ fuel
      → cfg.total_train_steps + 1 ≤ fuel + s.step
      → s.step ≤ (trainLoop cfg pgm fuel s).step
        ∧ (trainLoop cfg pgm fuel s).events
            = s.events
              ++ (List.range' (s.step + 1)
                    ((trainLoop cfg pgm fuel s).step - s.step)).flatMap
                  (iterEvents cfg pgm) := by
  intro fuel
  induction fuel with
  | zero => intro s h1 _; exact absurd h1 (by omega)
  | succ fuel ih =>
      intro s _ hfuel
      by_cases hcond : whileCond cfg s
      · have hstep' : (loopIter cfg pgm s).step = s.step + 1 := rfl
        by_cases hbreak : cfg.total_train_steps ≤ (loopIter cfg pgm s).step
        · have hT : trainLoop cfg pgm (fuel + 1) s = loopIter cfg pgm s := by
            rw [trainLoop, if_pos hcond, if_pos hbreak]
          rw [hT, hstep']
          refine ⟨by omega, ?_⟩
          have hd : s.step + 1 - s.step = 1 := by omega
          rw [hd]
          simp [loopIter]
        · have hT : trainLoop cfg pgm (fuel + 1) s
              = trainLoop cfg pgm fuel (loopIter cfg pgm s) := by
            rw [trainLoop, if_pos hcond, if_neg hbreak]
          rw [hstep'] at hbreak
          have h1 : 1 ≤ fuel := by omega
          have h2 : cfg.total_train_steps + 1 ≤ fuel + (loopIter cfg pgm s).step := by
            rw [hstep']; omega
          obtain ⟨ihstep, ihev⟩ := ih (loopIter cfg pgm s) h1 h2
          rw [hstep'] at ihstep
          rw [hT]
          refine ⟨by omega, ?_⟩
          rw [ihev, hstep']
          have hd : (trainLoop cfg pgm fuel (loopIter cfg pgm s)).step - s.step
              = ((trainLoop cfg pgm fuel (loopIter cfg pgm s)).step - (s.step + 1)) + 1 := by
            omega
          rw [hd, List.range'_succ]
          simp [loopIter]
      · have hT : trainLoop cfg pgm (fuel + 1) s = s := by
          rw [trainLoop, if_neg hcond]
        rw [hT]
        refine ⟨le_refl _, ?_⟩
        simp

/-- C8: over the whole driver run, the checkpoint load collaborator is
invoked exactly once, as the very first action, if and only if a load
path is configured, and it restores the step counter and the
trained-token counter before the first training step; the checkpoint
save collaborator is invoked exactly on those executed training steps
whose post-increment step index is a (positive) multiple of the
checkpoint frequency. -/
theorem checkpoint_save_load_schedule (cfg : Config) (pgm : ProcessGroupManager)
    (hf : 0 < cfg.checkpoint_frequency) :
    ((mainInitState cfg).step = (if cfg.load_path then cfg.loaded_step else 0))
      ∧ ((mainInitState cfg).trained_tokens
          = (if cfg.load_path then cfg.loaded_tokens else 0))
      ∧ ((runMain cfg pgm).events.count Event.loadCheckpoint
          = (if cfg.load_path then 1 else 0))
      ∧ (cfg.load_path = true → (runMain cfg pgm).events.head? = some Event.loadCheckpoint)
      ∧ (∀ n : Nat, (Event.saveCheckpoint n ∈ (runMain cfg pgm).events
          ↔ ((mainInitState cfg).step < n ∧ n ≤ (runMain cfg pgm).step
              ∧ 0 < n ∧ n % cfg.checkpoint_frequency = 0))) := by
  have hrm : runMain cfg pgm
      = trainLoop cfg pgm (cfg.total_train_steps + 1) (mainInitState cfg) := rfl
  obtain ⟨hstep, hev⟩ := trainLoop_spec cfg pgm (cfg.total_train_steps + 1)
    (mainInitState cfg) (by omega) (by omega)
  have hnoload : ∀ m : Nat, ((List.range' ((mainInitState cfg).step + 1)
        ((trainLoop cfg pgm (cfg.total_train_steps + 1) (mainInitState cfg)).step
          - (mainInitState cfg).step)).flatMap (iterEvents cfg pgm)).count
        Event.loadCheckpoint = 0 := by
    intro m
    refine List.count_eq_zero.mpr ?_
    intro hmem
    rcases List.mem_flatMap.mp hmem with ⟨k, -, hk⟩
    exact loadCheckpoint_not_mem_iterEvents cfg pgm k hk
  refine ⟨?_, ?_, ?_, ?_, ?_⟩
  · by_cases hl : cfg.load_path <;> simp [mainInitState, hl]
  · by_cases hl : cfg.load_path <;> simp [mainInitState, hl]
  · rw [hrm, hev, List.count_append, hnoload 0, Nat.add_zero]
    by_cases hl : cfg.load_path <;> simp [mainInitState, hl]
  · intro hl
    rw [hrm, hev]
    have hinit : (mainInitState cfg).events = [Event.loadCheckpoint] := by
      simp [mainInitState, hl]
    rw [hinit]
    rfl
  · intro n
    rw [hrm, hev, List.mem_append, List.mem_flatMap]
    have hnotinit : Event.saveCheckpoint n ∉ (mainInitState cfg).events := by
      by_cases hl : cfg.load_path <;> simp [mainInitState, hl]
    constructor
    · rintro (h | ⟨m, hm, hmem⟩)
      · exact absurd h hnotinit
      · rw [saveCheckpoint_mem_iterEvents_iff] at hmem
        obtain ⟨hmod, rfl⟩ := hmem
        rw [List.mem_range'_1] at hm
        exact ⟨by omega, by omega, by omega, hmod⟩
    · rintro ⟨h1, h2, h3, h4⟩
      refine Or.inr ⟨n, ?_, ?_⟩
      · rw [List.mem_range'_1]
        omega
      · rw [saveCheckpoint_mem_iterEvents_iff]
        exact ⟨h4, rfl⟩

/-- Witness for C8 at the concrete configuration `cfgW` (checkpoint
frequency 1, no load path, two training steps). -/
theorem checkpoint_save_load_schedule_witness :
    0 < cfgW.checkpoint_frequency
      ∧ (((mainInitState cfgW).step = (if cfgW.load_path then cfgW.loaded_step else 0))
          ∧ ((mainInitState cfgW).trained_tokens
              = (if cfgW.load_path then cfgW.loaded_tokens else 0))
          ∧ ((runMain cfgW pgmW).events.count Event.loadCheckpoint
              = (if cfgW.load_path then 1 else 0))
          ∧ (cfgW.load_path = true
              → (runMain cfgW pgmW).events.head? = some Event.loadCheckpoint)
          ∧ (∀ n : Nat, (Event.saveCheckpoint n ∈ (runMain cfgW pgmW).events
              ↔ ((mainInitState cfgW).step < n ∧ n ≤ (runMain cfgW pgmW).step
                  ∧ 0 < n ∧ n % cfgW.checkpoint_frequency = 0)))) :=
  ⟨by decide, checkpoint_save_load_schedule cfgW pgmW (by decide)⟩

end Picotron
